import Mathlib

/-! Fodder: search state, draw detection and move-ordering constants.

A shallow embedding of `src/Search/Search.h` of the Fodder chess engine:

* `SearchData` with `push`, `pop`, `reset`, `clearHeuristics` (the hash-history
  stack, the ply counter and the heuristic tables);
* `ThreadData` with `mustStop`, `abort`, `reset` (the shared stop flag);
* `isDraw` (repetition scan, fifty-move rule, insufficient material);
* the score constants and the move-ordering constants (`MVV_LVA`, ...).

Conventions.

* C++ `int` values are mathematical integers (`Int`).  Signed overflow is
  undefined behaviour in C++ and is outside the embedding; it would need a
  hash history of `2^31` entries.
* `std::vector<HashKey>` is a `List HashKey`; `push_back` appends at the end,
  `pop_back` drops the last element and is undefined on the empty vector
  (`none` here).
* `hashHistory[i]` is the unchecked `operator[]`.  Within `0 .. size-1` it
  yields the element.  At index `size`, the only index outside that range
  which `isDraw` reads, it yields the content of the memory cell that follows
  the last element; this content is a parameter, `slot`, of `isDraw`.  After a
  `pop_back` that cell still holds the hash just removed.
* `Position`, `Move`, `popcnt`, `MAX_PLY`, `HashKey`, `MoveScore`, `Time` and
  `getTimeMs` are declared in headers that are not part of this source file;
  `Position` is taken as the record of the four queries `isDraw` makes,
  `MAX_PLY` and the value of `getTimeMs()` are parameters.
* The stop flag is a `std::atomic<bool>` reached through a pointer.  Memory is
  a map from addresses to flag values, and the loads and stores of all threads
  on one flag are taken one at a time, in one sequence; how late a thread may
  observe a relaxed store made by another is outside the embedding.
-/

namespace Fodder

/-! ## Data model -/

/-- A position hash (`HashKey`, an unsigned 64-bit value; only compared for equality). -/
abbrev HashKey := Nat

/-- A move-ordering score (`MoveScore`, a signed integer type). -/
abbrev MoveScore := Int

/-- A set of squares, bit `i` standing for square `i` (`0 ≤ i < 64`). -/
abbrev Bitboard := Nat

/-- The struct `SearchData`: `ply`, `hashHistory`, the history table
`hh[2][64][64]` and the killer table `killers[MAX_PLY][2]`. -/
structure SearchData (MAX_PLY : Nat) where
  ply : Int
  hashHistory : List HashKey
  hh : Fin 2 → Fin 64 → Fin 64 → MoveScore
  killers : Fin MAX_PLY → Fin 2 → Nat

/-- `SearchData::push`: `hashHistory.push_back(hash); ply++`. -/
def SearchData.push {MAX_PLY : Nat} (sd : SearchData MAX_PLY) (hash : HashKey) :
    SearchData MAX_PLY :=
  { sd with hashHistory := sd.hashHistory ++ [hash], ply := sd.ply + 1 }

/-- `SearchData::pop`: `hashHistory.pop_back(); ply--`.  `pop_back` on an empty
vector is undefined behaviour: `none`. -/
def SearchData.pop {MAX_PLY : Nat} (sd : SearchData MAX_PLY) :
    Option (SearchData MAX_PLY) :=
  if sd.hashHistory.isEmpty then none
  else some { sd with hashHistory := sd.hashHistory.dropLast, ply := sd.ply - 1 }

/-- One call made on a `SearchData` during the tree walk: a descent
(`push hash`) or a backtrack (`pop`). -/
inductive Op where
  | push (hash : HashKey)
  | pop
  deriving DecidableEq, Repr

/-- Apply one call. -/
def step {MAX_PLY : Nat} (sd : SearchData MAX_PLY) : Op → Option (SearchData MAX_PLY)
  | Op.push hash => some (sd.push hash)
  | Op.pop => sd.pop

/-- Apply a sequence of calls, left to right; `none` as soon as a `pop` meets
an empty `hashHistory`. -/
def run {MAX_PLY : Nat} (sd : SearchData MAX_PLY) : List Op → Option (SearchData MAX_PLY)
  | [] => some sd
  | op :: ops =>
    match step sd op with
    | none => none
    | some sd1 => run sd1 ops

/-- The states reached after each call of a sequence, in order: one state per
call, up to (not including) the first `pop` that meets an empty `hashHistory`. -/
def runTrace {MAX_PLY : Nat} (sd : SearchData MAX_PLY) : List Op → List (SearchData MAX_PLY)
  | [] => []
  | op :: ops =>
    match step sd op with
    | none => []
    | some sd1 => sd1 :: runTrace sd1 ops

/-- `balancedFrom d ops`: with `d` pushes still open, every `pop` of `ops`
closes an open push and no push is left open at the end. -/
def balancedFrom : Nat → List Op → Bool
  | d, [] => d == 0
  | d, Op.push _ :: ops => balancedFrom (d + 1) ops
  | 0, Op.pop :: _ => false
  | d + 1, Op.pop :: ops => balancedFrom d ops

/-- A balanced sequence of pushes and pops: every pop is matched with an
earlier push of the sequence and every push with a later pop. -/
def balanced (ops : List Op) : Bool := balancedFrom 0 ops

/-- `SearchData::clearHeuristics<HardReset>`: both `memset` calls, which zero
the whole of `hh` and the whole of `killers`; the template parameter is not
used by the body. -/
def SearchData.clearHeuristics {MAX_PLY : Nat} (_HardReset : Bool) (sd : SearchData MAX_PLY) :
    SearchData MAX_PLY :=
  { sd with hh := fun _ _ _ => 0, killers := fun _ _ => 0 }

/-- `SearchData::reset`: `ply = 0; clearHeuristics<true>()`. -/
def SearchData.reset {MAX_PLY : Nat} (sd : SearchData MAX_PLY) : SearchData MAX_PLY :=
  SearchData.clearHeuristics true { sd with ply := 0 }

/-! ## Thread data and the stop flag -/

/-- A time in milliseconds (`Time`, an unsigned 64-bit value). -/
abbrev Time := Nat

/-- Modelled from the spec: the class `Move` of `Core/Position.h`, which is not
part of this source; a move is an abstract value here. -/
abbrev Move := Nat

/-- An address in memory; pointers are `Option Address`, `none` for `nullptr`. -/
abbrev Address := Nat

/-- The `std::atomic<bool>` objects in memory, by address.  A `load` reads the
value at an address and a `store` replaces it, one at a time: the calls of all
threads on one flag form one sequence. -/
abbrev Flags := Address → Bool

/-- `flags.store a b`: the memory after storing `b` in the flag at `a`. -/
def Flags.store (flags : Flags) (a : Address) (b : Bool) : Flags :=
  fun c => if c = a then b else flags c

/-- The struct `PVTable`. -/
structure PVTable (MAX_PLY : Nat) where
  moves : Fin MAX_PLY → Fin MAX_PLY → Move
  length : Fin MAX_PLY → Int

/-- The struct `SearchInfo`. -/
structure SearchInfo where
  starttime : Time
  timelim : Time
  softlim : Time
  depth : Int
  nodeslim : Nat
  movestogo : Int
  searchedPV : List Nat
  multiPV : Int
  seldepth : Int
  nodes : Nat

/-- The struct `ThreadData`; `rootPos` and `stop` are pointers. -/
structure ThreadData (MAX_PLY : Nat) where
  rootPos : Option Address
  sd : SearchData MAX_PLY
  info : SearchInfo
  pvTable : PVTable MAX_PLY
  stop : Option Address

/-- `ThreadData::mustStop`: `stop->load(relaxed)`; `none` on a null `stop`. -/
def ThreadData.mustStop {MAX_PLY : Nat} (td : ThreadData MAX_PLY) (flags : Flags) :
    Option Bool :=
  match td.stop with
  | none => none
  | some a => some (flags a)

/-- `ThreadData::abort`: `stop->store(true, relaxed)`; the result is the memory
after the call, `none` on a null `stop`. -/
def ThreadData.abort {MAX_PLY : Nat} (td : ThreadData MAX_PLY) (flags : Flags) :
    Option Flags :=
  match td.stop with
  | none => none
  | some a => some (flags.store a true)

/-- `ThreadData::reset`: `stop->store(false, relaxed); info.starttime = getTimeMs();
info.nodes = 0; info.seldepth = 0`, with `now` the value `getTimeMs()` returns.
The result is the thread data and the memory after the call, `none` on a null
`stop`. -/
def ThreadData.reset {MAX_PLY : Nat} (td : ThreadData MAX_PLY) (flags : Flags) (now : Time) :
    Option (ThreadData MAX_PLY × Flags) :=
  match td.stop with
  | none => none
  | some a =>
    some ({ td with info := { td.info with starttime := now, nodes := 0, seldepth := 0 } },
      flags.store a false)

/-- A call of `mustStop` or of `abort`, on some thread data. -/
inductive StopCall (MAX_PLY : Nat) where
  | mustStop (td : ThreadData MAX_PLY)
  | abort (td : ThreadData MAX_PLY)

/-- The thread data a call is made on. -/
def StopCall.thread {MAX_PLY : Nat} : StopCall MAX_PLY → ThreadData MAX_PLY
  | StopCall.mustStop td => td
  | StopCall.abort td => td

/-- The memory after one call: `mustStop` loads and leaves the memory as it is,
`abort` stores. -/
def stepStop {MAX_PLY : Nat} (flags : Flags) : StopCall MAX_PLY → Option Flags
  | StopCall.mustStop td =>
    match td.mustStop flags with
    | none => none
    | some _ => some flags
  | StopCall.abort td => td.abort flags

/-- The memory after a sequence of calls, left to right. -/
def runStop {MAX_PLY : Nat} (flags : Flags) : List (StopCall MAX_PLY) → Option Flags
  | [] => some flags
  | c :: cs =>
    match stepStop flags c with
    | none => none
    | some flags1 => runStop flags1 cs

/-! ## Scores -/

/-- An evaluation score (`EvalScore = int16_t`). -/
abbrev EvalScore := Int

def NO_SCORE : EvalScore := 32001
def INFINITY_SCORE : EvalScore := 32000
def CHECKMATE_SCORE : EvalScore := 30000

/-- The least value of `int16_t`. -/
def INT16_MIN : Int := -32768

/-- The greatest value of `int16_t`. -/
def INT16_MAX : Int := 32767

/-! ## Draw detection -/

/-- Modelled from the spec: the piece kinds of `Core/Position.h`, which is not
part of this source; `isDraw` names `Knight` only, and `MVV_LVA` has six rows
and columns. -/
inductive PieceType where
  | Pawn | Knight | Bishop | Rook | Queen | King
  deriving DecidableEq, Repr

/-- Modelled from the spec: the class `Position` of `Core/Position.h`, which is
not part of this source, as the record of the four queries `isDraw` makes
(the spec lists position hash, halfmove clock and piece-bitboard queries):
`halfMove()`, `getHash()`, `all()` (the occupied squares) and `getPieceBB(kind)`
(the squares holding a piece of that kind, of either colour). -/
structure Position where
  halfMove : Int
  getHash : HashKey
  all : Bitboard
  getPieceBB : PieceType → Bitboard

/-- Modelled from the spec: `popcnt`, declared outside this source, is the
piece count of a bitboard, that is the number of set bits among its 64. -/
def popcnt (b : Bitboard) : Nat :=
  ((List.range 64).filter (fun i => b.testBit i)).length

/-- The read `hashHistory[i]` with an `int` index, `operator[]` being
unchecked: the element at `i` when `0 ≤ i < size`; at `i = size` the content
`slot` of the memory cell that follows the last element (the cell in which
`pop_back` leaves the hash it removes); `none` at any other index, where
`isDraw` never reads. -/
def readHash (hist : List HashKey) (slot : HashKey) (i : Int) : Option HashKey :=
  if 0 ≤ i then (hist ++ [slot])[i.toNat]? else none

/-- The repetition loop of `isDraw`, entered with loop variable `i` and counter
`repetition`; `lo` is the loop bound `max(size - halfMove, 0)`:
`for (; i > lo; i -= 2) if (hashHistory[i] == hash) { repetition++; if (repetition >= 2) return true; }`.
The result is `true` when the loop executes `return true`, `false` when it runs
to its end. -/
def repetitionScan (hist : List HashKey) (slot : HashKey) (hash : HashKey) (lo : Int)
    (i : Int) (repetition : Int) : Bool :=
  if lo < i then
    if readHash hist slot i = some hash then
      if repetition + 1 ≥ 2 then true
      else repetitionScan hist slot hash lo (i - 2) (repetition + 1)
    else repetitionScan hist slot hash lo (i - 2) repetition
  else false
termination_by (i - lo).toNat
decreasing_by all_goals (simp_wf; omega)

/-- `Search::isDraw`, on the thread's `SearchData` (`td.sd`), the content
`slot` of the memory cell that follows the last element of `hashHistory`, and
the position. -/
def isDraw {MAX_PLY : Nat} (sd : SearchData MAX_PLY) (slot : HashKey) (pos : Position) :
    Bool :=
  if sd.ply = 0 then false
  else if repetitionScan sd.hashHistory slot pos.getHash
      (max ((sd.hashHistory.length : Int) - pos.halfMove) 0)
      (sd.hashHistory.length : Int) 0 then true
  else if pos.halfMove ≥ 100 then true
  else if decide (popcnt pos.all ≤ 3)
      && (decide (popcnt (pos.getPieceBB PieceType.Knight) ≠ 0)
        || decide (popcnt (pos.getPieceBB PieceType.Knight) ≠ 0)) then true
  else false

/-- The indices the repetition loop of `isDraw` reads, in order: the loop of
`repetitionScan` with every read `hashHistory[i]` recorded. -/
def repetitionReads (hist : List HashKey) (slot : HashKey) (hash : HashKey) (lo : Int)
    (i : Int) (repetition : Int) : List Int :=
  if lo < i then
    if readHash hist slot i = some hash then
      if repetition + 1 ≥ 2 then [i]
      else i :: repetitionReads hist slot hash lo (i - 2) (repetition + 1)
    else i :: repetitionReads hist slot hash lo (i - 2) repetition
  else []
termination_by (i - lo).toNat
decreasing_by all_goals (simp_wf; omega)

/-- The indices at which a call of `isDraw` reads `hashHistory`, in order. -/
def isDrawReads {MAX_PLY : Nat} (sd : SearchData MAX_PLY) (slot : HashKey)
    (pos : Position) : List Int :=
  if sd.ply = 0 then []
  else repetitionReads sd.hashHistory slot pos.getHash
      (max ((sd.hashHistory.length : Int) - pos.halfMove) 0)
      (sd.hashHistory.length : Int) 0

/-- The matching indices of the classifier: the indices `i` of the form
`n - 2k` (`n` the length of the history) with `i > lo` at which the history
holds `hash`; the index `n` itself is out of range and counts as no match. -/
def repetitionIndices (hist : List HashKey) (hash : HashKey) (lo : Int) : Finset Nat :=
  (Finset.range (hist.length + 1)).filter
    (fun i => lo < (i : Int) ∧ (hist.length - i) % 2 = 0 ∧ hist[i]? = some hash)

/-- The classifier in the words of the specification: `ply` is not 0 and
(1) at least two matching indices, or (2) `halfMove >= 100`, or (3) at most 3
pieces on the board and at least one knight. -/
def isDrawClassifier {MAX_PLY : Nat} (sd : SearchData MAX_PLY) (pos : Position) : Bool :=
  decide (sd.ply ≠ 0)
  && (decide (2 ≤ (repetitionIndices sd.hashHistory pos.getHash
          (max ((sd.hashHistory.length : Int) - pos.halfMove) 0)).card)
      || decide (100 ≤ pos.halfMove)
      || (decide (popcnt pos.all ≤ 3)
          && decide (1 ≤ popcnt (pos.getPieceBB PieceType.Knight))))

/-! ## Move-ordering constants -/

/-- `MVV_LVA[6][6]`, first index the attacker, second the victim. -/
def MVV_LVA : Fin 6 → Fin 6 → MoveScore :=
  ![![100005, 200005, 300005, 400005, 500005, 600005],
    ![100004, 200004, 300004, 400004, 500004, 600004],
    ![100003, 200003, 300003, 400003, 500003, 600003],
    ![100002, 200002, 300002, 400002, 500002, 600002],
    ![100001, 200001, 300001, 400001, 500001, 600001],
    ![100000, 200000, 300000, 400000, 500000, 600000]]

def NOISY_SCORE : MoveScore := 200000000
def QUIET_CAP : MoveScore := NOISY_SCORE - 1

def KILLER_0 : MoveScore := 90000000
def KILLER_1 : MoveScore := 80000000

def BAD_CAPTURE : MoveScore := -90000000
def BAD_PROMOTION : MoveScore := -200000000

def HISTORY_MAX : MoveScore := 32768

/-! ## Example states and positions -/

/-- A `SearchData` with the given ply and hash history and zeroed tables
(`MAX_PLY` taken as 4). -/
def mkSearchData (ply : Int) (hist : List HashKey) : SearchData 4 :=
  { ply := ply, hashHistory := hist, hh := fun _ _ _ => 0, killers := fun _ _ => 0 }

/-- A `ThreadData` bound to the flag at the given address, with the initial
`SearchInfo` of the source apart from a running node count and selective depth
(`MAX_PLY` taken as 4). -/
def mkThreadData (stop : Option Address) : ThreadData 4 :=
  { rootPos := some 100
    sd := mkSearchData 2 [5, 6]
    info :=
      { starttime := 0, timelim := 18446744073709551615, softlim := 18446744073709551615,
        depth := 100, nodeslim := 18446744073709551615, movestogo := 25,
        searchedPV := [77], multiPV := 1, seldepth := 9, nodes := 1234 }
    pvTable := { moves := fun _ _ => 0, length := fun _ => 0 }
    stop := stop }

/-- A memory in which every flag is `false`. -/
def allClear : Flags := fun _ => false

/-- A position given by its six piece bitboards (of both colours together);
`all` is their union. -/
def mkPosition (halfMove : Int) (hash : HashKey)
    (pawns knights bishops rooks queens kings : Bitboard) : Position :=
  { halfMove := halfMove
    getHash := hash
    all := pawns ||| knights ||| bishops ||| rooks ||| queens ||| kings
    getPieceBB := fun kind =>
      match kind with
      | PieceType.Pawn => pawns
      | PieceType.Knight => knights
      | PieceType.Bishop => bishops
      | PieceType.Rook => rooks
      | PieceType.Queen => queens
      | PieceType.King => kings }

/-- The initial position of chess (all 32 pieces), with a given halfmove clock
and hash. -/
def startPosition (halfMove : Int) (hash : HashKey) : Position :=
  mkPosition halfMove hash 0x00FF00000000FF00 0x4200000000000042 0x2400000000000024
    0x8100000000000081 0x0800000000000008 0x1000000000000010

/-- King on e1 against king on e8, nothing else. -/
def kingVsKing (halfMove : Int) (hash : HashKey) : Position :=
  mkPosition halfMove hash 0 0 0 0 0 0x1000000000000010

/-- King on e1 and knight on b1 against king on e8. -/
def kingKnightVsKing (halfMove : Int) (hash : HashKey) : Position :=
  mkPosition halfMove hash 0 0x2 0 0 0 0x1000000000000010

/-- King on e1 and bishop on c1 against king on e8. -/
def kingBishopVsKing (halfMove : Int) (hash : HashKey) : Position :=
  mkPosition halfMove hash 0 0 0x4 0 0 0x1000000000000010

/-- The only pieces of the position are the two kings. -/
def onlyKings (pos : Position) : Prop :=
  popcnt (pos.getPieceBB PieceType.King) = 2
  ∧ pos.all = pos.getPieceBB PieceType.King
  ∧ pos.getPieceBB PieceType.Pawn = 0
  ∧ pos.getPieceBB PieceType.Knight = 0
  ∧ pos.getPieceBB PieceType.Bishop = 0
  ∧ pos.getPieceBB PieceType.Rook = 0
  ∧ pos.getPieceBB PieceType.Queen = 0

instance (pos : Position) : Decidable (onlyKings pos) := by
  unfold onlyKings; infer_instance

/-- The only pieces of the position are the two kings and one knight. -/
def kingsAndOneKnight (pos : Position) : Prop :=
  popcnt (pos.getPieceBB PieceType.King) = 2
  ∧ popcnt (pos.getPieceBB PieceType.Knight) = 1
  ∧ popcnt pos.all = 3
  ∧ pos.all = pos.getPieceBB PieceType.King ||| pos.getPieceBB PieceType.Knight
  ∧ pos.getPieceBB PieceType.Pawn = 0
  ∧ pos.getPieceBB PieceType.Bishop = 0
  ∧ pos.getPieceBB PieceType.Rook = 0
  ∧ pos.getPieceBB PieceType.Queen = 0

instance (pos : Position) : Decidable (kingsAndOneKnight pos) := by
  unfold kingsAndOneKnight; infer_instance

/-- The only pieces of the position are the two kings and one bishop. -/
def kingsAndOneBishop (pos : Position) : Prop :=
  popcnt (pos.getPieceBB PieceType.King) = 2
  ∧ popcnt (pos.getPieceBB PieceType.Bishop) = 1
  ∧ popcnt pos.all = 3
  ∧ pos.all = pos.getPieceBB PieceType.King ||| pos.getPieceBB PieceType.Bishop
  ∧ pos.getPieceBB PieceType.Pawn = 0
  ∧ pos.getPieceBB PieceType.Knight = 0
  ∧ pos.getPieceBB PieceType.Rook = 0
  ∧ pos.getPieceBB PieceType.Queen = 0

instance (pos : Position) : Decidable (kingsAndOneBishop pos) := by
  unfold kingsAndOneBishop; infer_instance

end Fodder

namespace Fodder

/-! ## Push and pop -/

/-- A `pop` right after a `push` succeeds and gives the state back. -/
theorem pop_push {MAX_PLY : Nat} (sd : SearchData MAX_PLY) (hash : HashKey) :
    (sd.push hash).pop = some sd := by
  cases sd
  simp [SearchData.push, SearchData.pop]

/-- One successful call keeps the length of `hashHistory` equal to `ply`. -/
theorem step_length_eq_ply {MAX_PLY : Nat} (sd sd1 : SearchData MAX_PLY) (op : Op)
    (hinv : (sd.hashHistory.length : Int) = sd.ply) (hstep : step sd op = some sd1) :
    (sd1.hashHistory.length : Int) = sd1.ply := by
  cases op with
  | push hash =>
    simp only [step, Option.some.injEq] at hstep
    subst hstep
    simp [SearchData.push, hinv]
  | pop =>
    simp only [step, SearchData.pop] at hstep
    split at hstep
    · exact absurd hstep (by simp)
    · rename_i hne
      simp only [Option.some.injEq] at hstep
      subst hstep
      have hpos : 0 < sd.hashHistory.length := by
        cases hl : sd.hashHistory with
        | nil => simp [hl] at hne
        | cons a l => simp
      simp only [List.length_dropLast]
      omega

/-- From the state reached when the hashes `l` have been pushed on top of
`base`, a sequence that closes these `d` pushes and is otherwise balanced
succeeds and ends in `base`. -/
theorem run_balancedFrom {MAX_PLY : Nat} (ops : List Op) :
    ∀ (d : Nat) (base : SearchData MAX_PLY) (l : List HashKey), l.length = d →
      balancedFrom d ops = true →
      run { base with hashHistory := base.hashHistory ++ l, ply := base.ply + (d : Int) } ops
        = some base := by
  induction ops with
  | nil =>
    intro d base l hl hb
    simp only [balancedFrom, beq_iff_eq] at hb
    subst hb
    have hnil : l = [] := List.length_eq_zero.mp hl
    subst hnil
    cases base
    simp [run]
  | cons op ops ih =>
    intro d base l hl hb
    cases op with
    | push hash =>
      simp only [balancedFrom] at hb
      have h := ih (d + 1) base (l ++ [hash]) (by simp [hl]) hb
      simp only [run, step, SearchData.push]
      have e : base.ply + (d : Int) + 1 = base.ply + ((d + 1 : Nat) : Int) := by
        push_cast; ring
      rw [e, List.append_assoc]
      exact h
    | pop =>
      cases d with
      | zero => simp [balancedFrom] at hb
      | succ d =>
        simp only [balancedFrom] at hb
        have hne : l ≠ [] := by
          intro h0
          subst h0
          simp at hl
        have h := ih d base l.dropLast (by simp [hl]) hb
        have hne2 : base.hashHistory ++ l ≠ [] := by simp [hne]
        have hdrop : (base.hashHistory ++ l).dropLast = base.hashHistory ++ l.dropLast :=
          List.dropLast_append_of_ne_nil base.hashHistory hne
        have e : base.ply + ((d + 1 : Nat) : Int) - 1 = base.ply + (d : Int) := by
          push_cast; ring
        simp only [run, step, SearchData.pop, List.isEmpty_eq_true, hne2, if_false, hdrop, e]
        exact h

/-- C1: starting from a state in which the length of `hashHistory` equals
`ply`, every state reached after a step of a sequence of `push` and `pop` calls
(a `pop` being applied only to a non-empty `hashHistory`) has the length of
`hashHistory` equal to `ply`. -/
theorem C1_hashHistory_length_eq_ply {MAX_PLY : Nat} (sd : SearchData MAX_PLY)
    (ops : List Op) (hinv : (sd.hashHistory.length : Int) = sd.ply) :
    ∀ t ∈ runTrace sd ops, (t.hashHistory.length : Int) = t.ply := by
  induction ops generalizing sd with
  | nil => intro t ht; simp [runTrace] at ht
  | cons op ops ih =>
    intro t ht
    simp only [runTrace] at ht
    cases hstep : step sd op with
    | none => simp [hstep] at ht
    | some sd1 =>
      simp only [hstep, List.mem_cons] at ht
      have h1 := step_length_eq_ply sd sd1 op hinv hstep
      rcases ht with ht | ht
      · subst ht; exact h1
      · exact ih sd1 h1 t ht

/-- Witness of C1: from ply 1 with one stored hash, the walk push, push, pop,
pop, push visits five states, each with as many stored hashes as its ply. -/
theorem C1_hashHistory_length_eq_ply_witness :
    (((mkSearchData 1 [11]).hashHistory.length : Int) = (mkSearchData 1 [11]).ply)
    ∧ (runTrace (mkSearchData 1 [11])
        [Op.push 5, Op.push 6, Op.pop, Op.pop, Op.push 7]).length = 5
    ∧ ∀ t ∈ runTrace (mkSearchData 1 [11])
        [Op.push 5, Op.push 6, Op.pop, Op.pop, Op.push 7],
        (t.hashHistory.length : Int) = t.ply :=
  ⟨by decide, by decide,
    C1_hashHistory_length_eq_ply (mkSearchData 1 [11])
      [Op.push 5, Op.push 6, Op.pop, Op.pop, Op.push 7] (by decide)⟩

/-- C2: a balanced sequence of pushes and pops, run from any state, succeeds
and ends in that same state (`ply`, `hashHistory`, `hh` and `killers` all as
before); `pop` after `push hash` restores the state for every hash; a balanced
walk that starts at ply 0 ends at ply 0. -/
theorem C2_balanced_restores {MAX_PLY : Nat} (sd : SearchData MAX_PLY) (ops : List Op)
    (hb : balanced ops = true) :
    run sd ops = some sd
    ∧ (∀ hash : HashKey, (sd.push hash).pop = some sd)
    ∧ (sd.ply = 0 → ∀ t, run sd ops = some t → t.ply = 0) := by
  have hrun : run sd ops = some sd := by
    have h := run_balancedFrom ops 0 sd [] rfl hb
    have e : ({ sd with hashHistory := sd.hashHistory ++ [],
                        ply := sd.ply + ((0 : Nat) : Int) } : SearchData MAX_PLY) = sd := by
      cases sd; simp
    rw [e] at h
    exact h
  refine ⟨hrun, fun hash => pop_push sd hash, ?_⟩
  intro h0 t ht
  rw [hrun] at ht
  cases ht
  exact h0

/-- Witness of C2: push 5, push 6, pop, push 7, pop, pop is balanced and
brings the example state back. -/
theorem C2_balanced_restores_witness :
    balanced [Op.push 5, Op.push 6, Op.pop, Op.push 7, Op.pop, Op.pop] = true
    ∧ run (mkSearchData 0 [])
        [Op.push 5, Op.push 6, Op.pop, Op.push 7, Op.pop, Op.pop]
      = some (mkSearchData 0 []) :=
  ⟨by decide,
    (C2_balanced_restores (mkSearchData 0 [])
      [Op.push 5, Op.push 6, Op.pop, Op.push 7, Op.pop, Op.pop] (by decide)).1⟩

/-! ## The repetition scan -/

/-- A read gives a hash exactly at an index within the history that holds it,
or at index `size` when the cell past the end holds it. -/
theorem readHash_eq_some_iff (hist : List HashKey) (slot hash : HashKey) (j : Int) :
    readHash hist slot j = some hash ↔
      0 ≤ j ∧ ((j.toNat < hist.length ∧ hist[j.toNat]? = some hash)
        ∨ (j.toNat = hist.length ∧ slot = hash)) := by
  unfold readHash
  by_cases hj : 0 ≤ j
  · simp only [hj, if_true, true_and]
    rcases Nat.lt_trichotomy j.toNat hist.length with h | h | h
    · rw [List.getElem?_append_left h]
      constructor
      · intro e
        exact Or.inl ⟨h, e⟩
      · intro e
        rcases e with e | e
        · exact e.2
        · omega
    · rw [List.getElem?_append_right (by omega), h]
      simp
    · have hnone : (hist ++ [slot])[j.toNat]? = none := by
        apply List.getElem?_eq_none
        simp
        omega
      rw [hnone]
      constructor
      · intro e
        exact absurd e (by simp)
      · intro e
        rcases e with e | e <;> omega
  · simp [hj]

/-- A scan that returns `true` has counted two matches: the counter it starts
with plus the matching cells at indices `0 .. i`, among the elements followed
by the cell past the end, reach 2. -/
theorem repetitionScan_true_count (hist : List HashKey) (slot hash : HashKey) (lo : Int) :
    ∀ (i repetition : Int), repetitionScan hist slot hash lo i repetition = true →
      2 ≤ repetition + (((hist ++ [slot]).take (i + 1).toNat).count hash : Int) := by
  obtain ⟨cells, hcells⟩ : ∃ cells, cells = hist ++ [slot] := ⟨_, rfl⟩
  rw [← hcells]
  intro i repetition
  induction i, repetition using repetitionScan.induct hist slot hash lo with
  | case1 i repetition hlo hread hrep =>
    intro _
    have hi : 0 ≤ i := by
      by_contra hneg
      simp [readHash, hneg] at hread
    simp only [readHash, hi, if_true, ← hcells] at hread
    have e : (i + 1).toNat = i.toNat + 1 := by omega
    rw [e, List.take_succ, hread, List.count_append]
    simp
    omega
  | case2 i repetition hlo hread hrep ih =>
    intro h
    rw [repetitionScan] at h
    simp only [hlo, hread, hrep, if_true, if_false] at h
    have h2 := ih h
    have hi : 0 ≤ i := by
      by_contra hneg
      simp [readHash, hneg] at hread
    simp only [readHash, hi, if_true, ← hcells] at hread
    have e : (i + 1).toNat = i.toNat + 1 := by omega
    have hle : (i - 2 + 1).toNat ≤ i.toNat := by omega
    have hsub := (List.take_sublist_take_left cells hle).count_le hash
    rw [e, List.take_succ, hread, List.count_append]
    simp
    omega
  | case3 i repetition hlo hread ih =>
    intro h
    rw [repetitionScan] at h
    simp only [hlo, hread, if_true, if_false] at h
    have h2 := ih h
    have hle : (i - 2 + 1).toNat ≤ (i + 1).toNat := by omega
    have hsub := (List.take_sublist_take_left cells hle).count_le hash
    omega
  | case4 i repetition hlo =>
    intro h
    rw [repetitionScan] at h
    simp [hlo] at h

/-- When the cell past the end does not hold the hash, a hash stored at most
once in the history is never found twice by the scan. -/
theorem repetitionScan_false_of_count_le_one (hist : List HashKey) (slot hash : HashKey)
    (lo i : Int) (hslot : slot ≠ hash) (hcount : hist.count hash ≤ 1) :
    repetitionScan hist slot hash lo i 0 = false := by
  cases h : repetitionScan hist slot hash lo i 0 with
  | false => rfl
  | true =>
    have h2 := repetitionScan_true_count hist slot hash lo i 0 h
    have hsub := (List.take_sublist (i + 1).toNat (hist ++ [slot])).count_le hash
    have h0 : List.count hash [slot] = 0 := by
      rw [List.count_eq_zero]
      intro hmem
      exact hslot (List.mem_singleton.mp hmem).symm
    have hc : (hist ++ [slot]).count hash = hist.count hash := by
      rw [List.count_append, h0, Nat.add_zero]
    omega

/-- Once one match has been counted, a further match at an index `j` that the
scan visits (`lo < j ≤ i`, `j` an even number of steps below `i`) ends it. -/
theorem repetitionScan_true_of_match (hist : List HashKey) (slot hash : HashKey) (lo : Int) :
    ∀ (i repetition : Int) (j : Int), lo < j → j ≤ i → (i - j) % 2 = 0 →
      readHash hist slot j = some hash → 1 ≤ repetition →
      repetitionScan hist slot hash lo i repetition = true := by
  intro i repetition
  induction i, repetition using repetitionScan.induct hist slot hash lo with
  | case1 i repetition hlo hread hrep =>
    intro j _ _ _ _ _
    rw [repetitionScan]
    simp only [hlo, hread, hrep, if_true]
  | case2 i repetition hlo hread hrep ih =>
    intro j _ _ _ _ h1
    omega
  | case3 i repetition hlo hread ih =>
    intro j hj hji hpar hmatch h1
    rw [repetitionScan]
    simp only [hlo, hread, if_true, if_false]
    have hne : j ≠ i := by
      intro e
      subst e
      exact hread hmatch
    exact ih j hj (by omega) (by omega) hmatch h1
  | case4 i repetition hlo =>
    intro j hj hji _ _ _
    omega

/-- Two matches at distinct visited indices `j2 < j1` (both above `lo`, both an
even number of steps below the start `i`) make the scan return `true`. -/
theorem repetitionScan_true_of_two_matches (hist : List HashKey) (slot hash : HashKey)
    (lo : Int) :
    ∀ (i repetition : Int) (j1 j2 : Int), lo < j2 → j2 < j1 → j1 ≤ i →
      (i - j1) % 2 = 0 → (i - j2) % 2 = 0 →
      readHash hist slot j1 = some hash → readHash hist slot j2 = some hash →
      0 ≤ repetition →
      repetitionScan hist slot hash lo i repetition = true := by
  intro i repetition
  induction i, repetition using repetitionScan.induct hist slot hash lo with
  | case1 i repetition hlo hread hrep =>
    intro j1 j2 _ _ _ _ _ _ _ _
    rw [repetitionScan]
    simp only [hlo, hread, hrep, if_true]
  | case2 i repetition hlo hread hrep ih =>
    intro j1 j2 h2 h21 h1i hp1 hp2 hm1 hm2 h0
    rw [repetitionScan]
    simp only [hlo, hread, hrep, if_true, if_false]
    exact repetitionScan_true_of_match hist slot hash lo (i - 2) (repetition + 1) j2 h2
      (by omega) (by omega) hm2 (by omega)
  | case3 i repetition hlo hread ih =>
    intro j1 j2 h2 h21 h1i hp1 hp2 hm1 hm2 h0
    rw [repetitionScan]
    simp only [hlo, hread, if_true, if_false]
    have hne : j1 ≠ i := by
      intro e
      subst e
      exact hread hm1
    exact ih j1 j2 h2 h21 (by omega) (by omega) (by omega) hm1 hm2 h0
  | case4 i repetition hlo =>
    intro j1 j2 h2 h21 h1i _ _ _ _ _
    omega

/-! ## isDraw -/

/-- C3: with `ply > 0`, a position whose halfmove clock is at least 100 is a
draw for `isDraw`, whatever its pieces, whatever the hash history and whatever
the cell past its end holds. -/
theorem C3_fifty_move_rule {MAX_PLY : Nat} (sd : SearchData MAX_PLY) (slot : HashKey)
    (pos : Position) (hply : 0 < sd.ply) (hclock : 100 ≤ pos.halfMove) :
    isDraw sd slot pos = true := by
  have hne : sd.ply ≠ 0 := by omega
  unfold isDraw
  simp only [hne, if_false]
  split
  · rfl
  · simp [hclock]

/-- Witness of C3: the initial position with halfmove clock 100, at ply 1. -/
theorem C3_fifty_move_rule_witness :
    0 < (mkSearchData 1 [17]).ply ∧ 100 ≤ (startPosition 100 42).halfMove
    ∧ isDraw (mkSearchData 1 [17]) 0 (startPosition 100 42) = true :=
  ⟨by decide, by decide,
    C3_fifty_move_rule (mkSearchData 1 [17]) 0 (startPosition 100 42) (by decide) (by decide)⟩

/-- When the cell past the end does not hold the position hash: no draw without
a second match, that is with a clock below 100, more than 3 pieces or no
knight, and the hash stored at most once. -/
theorem isDraw_false_of_count_le_one {MAX_PLY : Nat} (sd : SearchData MAX_PLY)
    (slot : HashKey) (pos : Position) (hply : 0 < sd.ply) (hclock : pos.halfMove < 100)
    (hmat : 3 < popcnt pos.all ∨ popcnt (pos.getPieceBB PieceType.Knight) = 0)
    (hslot : slot ≠ pos.getHash)
    (hcount : sd.hashHistory.count pos.getHash ≤ 1) : isDraw sd slot pos = false := by
  have hscan := repetitionScan_false_of_count_le_one sd.hashHistory slot pos.getHash
    (max ((sd.hashHistory.length : Int) - pos.halfMove) 0) (sd.hashHistory.length : Int)
    hslot hcount
  have hne : sd.ply ≠ 0 := by omega
  have hc : ¬ pos.halfMove ≥ 100 := by omega
  unfold isDraw
  simp only [hne, hscan, hc, if_false]
  rcases hmat with h | h
  · have h3 : ¬ popcnt pos.all ≤ 3 := by omega
    simp [h3]
  · simp [h]

/-- C5, the code after a backtrack.  The walk push 5, push 42, push 6, push 42,
pop leaves `hashHistory = [5, 42, 6]` at ply 3 and the popped hash 42 in the
cell past the end.  For the initial position with hash 42 and halfmove clock
10, the hash is stored once, the clock is below 100 and 32 pieces are on the
board; `isDraw` reads the cell past the end at index 3, then index 1, counts
two matches and returns `true`. -/
theorem C5_popped_hash_counted_as_repetition :
    (mkSearchData 4 [5, 42, 6, 42]).pop = some (mkSearchData 3 [5, 42, 6])
    ∧ (mkSearchData 4 [5, 42, 6, 42]).hashHistory.getLast? = some 42
    ∧ 0 < (mkSearchData 3 [5, 42, 6]).ply
    ∧ (startPosition 10 42).halfMove < 100
    ∧ 3 < popcnt (startPosition 10 42).all
    ∧ (mkSearchData 3 [5, 42, 6]).hashHistory.count (startPosition 10 42).getHash ≤ 1
    ∧ isDraw (mkSearchData 3 [5, 42, 6]) 42 (startPosition 10 42) = true := by
  have hc : (startPosition 10 42).halfMove = 10 := rfl
  have hh : (startPosition 10 42).getHash = 42 := rfl
  refine ⟨?_, by decide, by decide, by decide, by decide, by decide, ?_⟩
  · simp [SearchData.pop, mkSearchData]
  · simp [isDraw, mkSearchData, repetitionScan, readHash, hc, hh]

/-- C8: at `ply = 0` `isDraw` returns `false`, whatever the position, the hash
history and the cell past its end. -/
theorem C8_root_never_draw {MAX_PLY : Nat} (sd : SearchData MAX_PLY) (slot : HashKey)
    (pos : Position) (hply : sd.ply = 0) : isDraw sd slot pos = false := by
  unfold isDraw
  simp [hply]

/-- Witness of C8: bare kings with halfmove clock 120 and a repeated history
are no draw at the root. -/
theorem C8_root_never_draw_witness :
    (mkSearchData 0 [42, 1, 42, 2, 42, 3]).ply = 0
    ∧ isDraw (mkSearchData 0 [42, 1, 42, 2, 42, 3]) 42 (kingVsKing 120 42) = false :=
  ⟨by decide,
    C8_root_never_draw (mkSearchData 0 [42, 1, 42, 2, 42, 3]) 42 (kingVsKing 120 42)
      (by decide)⟩

/-- What the scan does detect: with `ply > 0`, two entries `hashHistory[size - d1]`
and `hashHistory[size - d2]` equal to the position hash, at even distances
`0 < d1 < d2` strictly below both the halfmove clock and the history length,
make `isDraw` return `true`. -/
theorem isDraw_of_two_matches_inside {MAX_PLY : Nat} (sd : SearchData MAX_PLY)
    (slot : HashKey) (pos : Position) (d1 d2 : Nat) (hply : 0 < sd.ply)
    (h12 : d1 < d2) (he1 : d1 % 2 = 0) (he2 : d2 % 2 = 0)
    (hclock : (d2 : Int) < pos.halfMove) (hlen : d2 < sd.hashHistory.length)
    (hm1 : sd.hashHistory[sd.hashHistory.length - d1]? = some pos.getHash)
    (hm2 : sd.hashHistory[sd.hashHistory.length - d2]? = some pos.getHash) :
    isDraw sd slot pos = true := by
  have hne : sd.ply ≠ 0 := by omega
  have hin1 : sd.hashHistory.length - d1 < sd.hashHistory.length :=
    (List.getElem?_eq_some.mp hm1).1
  have hin2 : sd.hashHistory.length - d2 < sd.hashHistory.length :=
    (List.getElem?_eq_some.mp hm2).1
  have hscan : repetitionScan sd.hashHistory slot pos.getHash
      (max ((sd.hashHistory.length : Int) - pos.halfMove) 0)
      (sd.hashHistory.length : Int) 0 = true := by
    apply repetitionScan_true_of_two_matches sd.hashHistory slot pos.getHash _
      (sd.hashHistory.length : Int) 0
      ((sd.hashHistory.length : Int) - (d1 : Int)) ((sd.hashHistory.length : Int) - (d2 : Int))
    · rcases max_cases ((sd.hashHistory.length : Int) - pos.halfMove) 0 with ⟨e, _⟩ | ⟨e, _⟩ <;>
        rw [e] <;> omega
    · omega
    · omega
    · omega
    · omega
    · apply (readHash_eq_some_iff _ _ _ _).mpr
      have e : ((sd.hashHistory.length : Int) - (d1 : Int)).toNat
          = sd.hashHistory.length - d1 := by omega
      rw [e]
      exact ⟨by omega, Or.inl ⟨hin1, hm1⟩⟩
    · apply (readHash_eq_some_iff _ _ _ _).mpr
      have e : ((sd.hashHistory.length : Int) - (d2 : Int)).toNat
          = sd.hashHistory.length - d2 := by omega
      rw [e]
      exact ⟨by omega, Or.inl ⟨hin2, hm2⟩⟩
    · exact le_refl 0
  unfold isDraw
  simp only [hne, hscan, if_true, if_false]

/-- C4, the code at two inputs of the claim.  In each, the hash 42 of the
position is stored at the even distances 4 and 8 behind, both within the
halfmove clock 8, and `ply > 0`; `isDraw` returns `false` whenever the cell
past the end holds another value than 42.  In the first input the entry 8 plies
behind is index 0, in the second it is index `size - halfMove = 2`: the loop
condition `i > max(size - halfMove, 0)` stops before either. -/
theorem C4_repetition_at_window_edge_missed :
    (0 < (mkSearchData 8 [42, 1, 2, 3, 42, 4, 5, 6]).ply
      ∧ (mkSearchData 8 [42, 1, 2, 3, 42, 4, 5, 6]).hashHistory[8 - 4]?
          = some (startPosition 8 42).getHash
      ∧ (mkSearchData 8 [42, 1, 2, 3, 42, 4, 5, 6]).hashHistory[8 - 8]?
          = some (startPosition 8 42).getHash
      ∧ (8 : Int) ≤ (startPosition 8 42).halfMove
      ∧ ∀ slot : HashKey, slot ≠ 42 →
          isDraw (mkSearchData 8 [42, 1, 2, 3, 42, 4, 5, 6]) slot (startPosition 8 42) = false)
    ∧ (0 < (mkSearchData 10 [9, 8, 42, 1, 2, 3, 42, 4, 5, 6]).ply
      ∧ (mkSearchData 10 [9, 8, 42, 1, 2, 3, 42, 4, 5, 6]).hashHistory[10 - 4]?
          = some (startPosition 8 42).getHash
      ∧ (mkSearchData 10 [9, 8, 42, 1, 2, 3, 42, 4, 5, 6]).hashHistory[10 - 8]?
          = some (startPosition 8 42).getHash
      ∧ (8 : Int) ≤ (startPosition 8 42).halfMove
      ∧ ∀ slot : HashKey, slot ≠ 42 →
          isDraw (mkSearchData 10 [9, 8, 42, 1, 2, 3, 42, 4, 5, 6]) slot (startPosition 8 42)
            = false) := by
  have h4 : ¬ popcnt (startPosition 8 42).all ≤ 3 := by decide
  have hc : (startPosition 8 42).halfMove = 8 := rfl
  have hh : (startPosition 8 42).getHash = 42 := rfl
  refine ⟨⟨by decide, by decide, by decide, by decide, ?_⟩,
    ⟨by decide, by decide, by decide, by decide, ?_⟩⟩
  · intro slot hslot
    simp [isDraw, mkSearchData, repetitionScan, readHash, h4, hc, hh, hslot]
  · intro slot hslot
    simp [isDraw, mkSearchData, repetitionScan, readHash, h4, hc, hh, hslot]

/-- C6, the code at king against king: at ply 1, halfmove clock 0, the only
pieces being the two kings, `isDraw` reads no hash and returns `false`,
whatever the cell past the end holds. -/
theorem C6_king_vs_king_not_draw :
    0 < (mkSearchData 1 [17]).ply ∧ onlyKings (kingVsKing 0 42)
    ∧ (∀ slot : HashKey, isDrawReads (mkSearchData 1 [17]) slot (kingVsKing 0 42) = [])
    ∧ ∀ slot : HashKey, isDraw (mkSearchData 1 [17]) slot (kingVsKing 0 42) = false := by
  have h4 : popcnt ((kingVsKing 0 42).getPieceBB PieceType.Knight) = 0 := by decide
  have hc : (kingVsKing 0 42).halfMove = 0 := rfl
  have hh : (kingVsKing 0 42).getHash = 42 := rfl
  refine ⟨by decide, by decide, ?_, ?_⟩
  · intro slot
    simp [isDrawReads, mkSearchData, repetitionReads, hc, hh]
  · intro slot
    simp [isDraw, mkSearchData, repetitionScan, h4, hc, hh]

/-- The knight half of king and minor piece against king: with `ply > 0`, two
kings and one knight are a draw for `isDraw`. -/
theorem isDraw_kings_and_one_knight {MAX_PLY : Nat} (sd : SearchData MAX_PLY)
    (slot : HashKey) (pos : Position) (hply : 0 < sd.ply) (hk : kingsAndOneKnight pos) :
    isDraw sd slot pos = true := by
  have hne : sd.ply ≠ 0 := by omega
  have hkn : popcnt (pos.getPieceBB PieceType.Knight) = 1 := hk.2.1
  have hall : popcnt pos.all = 3 := hk.2.2.1
  unfold isDraw
  simp only [hne, if_false, hkn, hall]
  split
  · rfl
  · split
    · rfl
    · simp

/-- C7, the code at a king and bishop against king: at ply 1, halfmove clock 0
and no repetition, the only pieces being the two kings and one bishop,
`isDraw` returns `false`, whatever the cell past the end holds; with a knight
on b1 in place of the bishop it returns `true`. -/
theorem C7_king_bishop_vs_king_not_draw :
    0 < (mkSearchData 1 [17]).ply ∧ kingsAndOneBishop (kingBishopVsKing 0 42)
    ∧ (∀ slot : HashKey, isDraw (mkSearchData 1 [17]) slot (kingBishopVsKing 0 42) = false)
    ∧ kingsAndOneKnight (kingKnightVsKing 0 42)
    ∧ ∀ slot : HashKey, isDraw (mkSearchData 1 [17]) slot (kingKnightVsKing 0 42) = true := by
  have h4 : popcnt ((kingBishopVsKing 0 42).getPieceBB PieceType.Knight) = 0 := by decide
  have hc : (kingBishopVsKing 0 42).halfMove = 0 := rfl
  have hh : (kingBishopVsKing 0 42).getHash = 42 := rfl
  refine ⟨by decide, by decide, ?_, by decide,
    fun slot => isDraw_kings_and_one_knight _ slot _ (by decide) (by decide)⟩
  intro slot
  simp [isDraw, mkSearchData, repetitionScan, h4, hc, hh]

/-! ## Move-ordering constants -/

/-- Every entry of `MVV_LVA` lies between 100000 and 600005. -/
theorem MVV_LVA_bounds : ∀ a v : Fin 6, 100000 ≤ MVV_LVA a v ∧ MVV_LVA a v ≤ 600005 := by
  decide

/-- C9: the move-ordering bands are strictly separated.  For all entries
`m`, `m1`, `m2` of `MVV_LVA` and every history score `h` within
`[-HISTORY_MAX, HISTORY_MAX]`:
`NOISY_SCORE + m > QUIET_CAP ≥ KILLER_0 > KILLER_1 > h > BAD_CAPTURE + m1 > BAD_PROMOTION + m2`;
every sum also lies within the signed 32-bit range. -/
theorem C9_ordering_bands (a v a1 v1 a2 v2 : Fin 6) (h : MoveScore)
    (hlo : -HISTORY_MAX ≤ h) (hhi : h ≤ HISTORY_MAX) :
    NOISY_SCORE + MVV_LVA a v > QUIET_CAP
    ∧ QUIET_CAP ≥ KILLER_0
    ∧ KILLER_0 > KILLER_1
    ∧ KILLER_1 > h
    ∧ h > BAD_CAPTURE + MVV_LVA a1 v1
    ∧ BAD_CAPTURE + MVV_LVA a1 v1 > BAD_PROMOTION + MVV_LVA a2 v2
    ∧ NOISY_SCORE + MVV_LVA a v < 2 ^ 31
    ∧ -(2 ^ 31) ≤ BAD_PROMOTION + MVV_LVA a2 v2 := by
  have key : ∀ m m1 m2 x : Int, 100000 ≤ m ∧ m ≤ 600005 → 100000 ≤ m1 ∧ m1 ≤ 600005 →
      100000 ≤ m2 ∧ m2 ≤ 600005 → -32768 ≤ x → x ≤ 32768 →
      200000000 + m > 200000000 - 1
      ∧ (200000000 : Int) - 1 ≥ 90000000
      ∧ (90000000 : Int) > 80000000
      ∧ 80000000 > x
      ∧ x > -90000000 + m1
      ∧ -90000000 + m1 > -200000000 + m2
      ∧ 200000000 + m < 2 ^ 31
      ∧ -(2 ^ 31) ≤ -200000000 + m2 := by
    intro m m1 m2 x hm hm1 hm2 hx1 hx2
    refine ⟨?_, ?_, ?_, ?_, ?_, ?_, ?_, ?_⟩ <;> omega
  exact key (MVV_LVA a v) (MVV_LVA a1 v1) (MVV_LVA a2 v2) h (MVV_LVA_bounds a v)
    (MVV_LVA_bounds a1 v1) (MVV_LVA_bounds a2 v2) hlo hhi

/-- Witness of C9: pawn takes queen as good capture, the history score at its
upper clamp, queen takes pawn as bad capture and as bad promotion. -/
theorem C9_ordering_bands_witness :
    -HISTORY_MAX ≤ (32768 : MoveScore) ∧ (32768 : MoveScore) ≤ HISTORY_MAX
    ∧ NOISY_SCORE + MVV_LVA 0 4 > QUIET_CAP
    ∧ KILLER_1 > (32768 : MoveScore)
    ∧ (32768 : MoveScore) > BAD_CAPTURE + MVV_LVA 4 0
    ∧ BAD_CAPTURE + MVV_LVA 4 0 > BAD_PROMOTION + MVV_LVA 0 5 :=
  have w := C9_ordering_bands 0 4 4 0 0 5 32768 (by decide) (by decide)
  ⟨by decide, by decide, w.1, w.2.2.2.1, w.2.2.2.2.1, w.2.2.2.2.2.1⟩

/-- C10: `MVV_LVA` ranks by victim first and by attacker second.  A more
valuable victim outranks a less valuable one whatever the attackers; for one
victim a less valuable attacker outranks a more valuable one; and
`MVV_LVA[a][v] = 100000 * (v + 1) + (5 - a)`. -/
theorem C10_mvv_lva_order :
    (∀ a a1 v v1 : Fin 6, v < v1 → MVV_LVA a v < MVV_LVA a1 v1)
    ∧ (∀ v a a1 : Fin 6, a < a1 → MVV_LVA a v > MVV_LVA a1 v)
    ∧ (∀ a v : Fin 6, MVV_LVA a v = 100000 * ((v : Int) + 1) + (5 - (a : Int))) := by
  refine ⟨by decide, by decide, by decide⟩

/-- Witness of C10: knight takes rook outranks pawn takes bishop, and pawn
takes rook outranks knight takes rook. -/
theorem C10_mvv_lva_order_witness :
    MVV_LVA 0 2 < MVV_LVA 1 3 ∧ MVV_LVA 0 3 > MVV_LVA 1 3 ∧ MVV_LVA 1 3 = 400004 :=
  ⟨C10_mvv_lva_order.1 0 1 2 3 (by decide), C10_mvv_lva_order.2.1 3 0 1 (by decide),
    by rw [C10_mvv_lva_order.2.2 1 3]; decide⟩

/-! ## Reset of the search data -/

/-- C11 as stated fails: from ply 2 with two stored hashes (length equal to
ply), `reset` gives ply 0 and still two stored hashes. -/
theorem C11_reset_length_counterexample :
    ((mkSearchData 2 [5, 6]).hashHistory.length : Int) = (mkSearchData 2 [5, 6]).ply
    ∧ (mkSearchData 2 [5, 6]).reset.hashHistory.length = 2
    ∧ (mkSearchData 2 [5, 6]).reset.ply = 0
    ∧ ((mkSearchData 2 [5, 6]).reset.hashHistory.length : Int)
        ≠ (mkSearchData 2 [5, 6]).reset.ply := by
  refine ⟨by decide, by decide, by decide, by decide⟩

/-- C11 amended: `reset` sets `ply` to 0 and keeps `hashHistory`, so in the
state it produces the length of `hashHistory` equals `ply` exactly when
`hashHistory` is empty. -/
theorem C11_reset_length_amended {MAX_PLY : Nat} (sd : SearchData MAX_PLY) :
    sd.reset.ply = 0 ∧ sd.reset.hashHistory = sd.hashHistory
    ∧ (((sd.reset.hashHistory.length : Int) = sd.reset.ply) ↔ sd.hashHistory = []) := by
  refine ⟨rfl, rfl, ?_⟩
  have hp : sd.reset.ply = 0 := rfl
  have hh : sd.reset.hashHistory = sd.hashHistory := rfl
  rw [hp, hh]
  constructor
  · intro h
    exact List.length_eq_zero.mp (by exact_mod_cast h)
  · intro h
    simp [h]

/-- C15: `reset` gives ply 0, all of `hh` zero (so within
`[-HISTORY_MAX, HISTORY_MAX]`), every killer slot zero and the same
`hashHistory`; `clearHeuristics`, for either value of `HardReset`, zeroes `hh`
and `killers` and keeps `ply` and `hashHistory`. -/
theorem C15_reset_clears {MAX_PLY : Nat} (sd : SearchData MAX_PLY) :
    sd.reset.ply = 0
    ∧ (∀ c f t, sd.reset.hh c f t = 0)
    ∧ (∀ c f t, -HISTORY_MAX ≤ sd.reset.hh c f t ∧ sd.reset.hh c f t ≤ HISTORY_MAX)
    ∧ (∀ p k, sd.reset.killers p k = 0)
    ∧ sd.reset.hashHistory = sd.hashHistory
    ∧ (∀ b : Bool,
        (∀ c f t, (sd.clearHeuristics b).hh c f t = 0)
        ∧ (∀ p k, (sd.clearHeuristics b).killers p k = 0)
        ∧ (sd.clearHeuristics b).ply = sd.ply
        ∧ (sd.clearHeuristics b).hashHistory = sd.hashHistory) := by
  refine ⟨rfl, fun _ _ _ => rfl, ?_, fun _ _ => rfl, rfl, ?_⟩
  · intro c f t
    have h0 : sd.reset.hh c f t = 0 := rfl
    rw [h0]
    constructor <;> decide
  · intro b
    cases b
    · exact ⟨fun _ _ _ => rfl, fun _ _ => rfl, rfl, rfl⟩
    · exact ⟨fun _ _ _ => rfl, fun _ _ => rfl, rfl, rfl⟩

/-! ## The classifier of the specification -/

/-- A scan that returns `true` has met a match at an index it visits. -/
theorem repetitionScan_true_exists_match (hist : List HashKey) (slot hash : HashKey)
    (lo : Int) :
    ∀ (i repetition : Int), repetitionScan hist slot hash lo i repetition = true →
      ∃ j, lo < j ∧ j ≤ i ∧ (i - j) % 2 = 0 ∧ readHash hist slot j = some hash := by
  intro i repetition
  induction i, repetition using repetitionScan.induct hist slot hash lo with
  | case1 i repetition hlo hread hrep =>
    intro _
    exact ⟨i, hlo, le_refl i, by omega, hread⟩
  | case2 i repetition hlo hread hrep ih =>
    intro _
    exact ⟨i, hlo, le_refl i, by omega, hread⟩
  | case3 i repetition hlo hread ih =>
    intro h
    rw [repetitionScan] at h
    simp only [hlo, hread, if_true, if_false] at h
    obtain ⟨j, h1, h2, h3, h4⟩ := ih h
    exact ⟨j, h1, by omega, by omega, h4⟩
  | case4 i repetition hlo =>
    intro h
    rw [repetitionScan] at h
    simp [hlo] at h

/-- A scan started with no match counted that returns `true` has met matches at
two distinct indices it visits. -/
theorem repetitionScan_true_exists_two (hist : List HashKey) (slot hash : HashKey)
    (lo : Int) :
    ∀ (i repetition : Int), repetitionScan hist slot hash lo i repetition = true →
      repetition ≤ 0 →
      ∃ j1 j2, lo < j2 ∧ j2 < j1 ∧ j1 ≤ i ∧ (i - j1) % 2 = 0 ∧ (i - j2) % 2 = 0
        ∧ readHash hist slot j1 = some hash ∧ readHash hist slot j2 = some hash := by
  intro i repetition
  induction i, repetition using repetitionScan.induct hist slot hash lo with
  | case1 i repetition hlo hread hrep =>
    intro _ h0
    omega
  | case2 i repetition hlo hread hrep ih =>
    intro h _
    rw [repetitionScan] at h
    simp only [hlo, hread, hrep, if_true, if_false] at h
    obtain ⟨j, h1, h2, h3, h4⟩ :=
      repetitionScan_true_exists_match hist slot hash lo (i - 2) (repetition + 1) h
    exact ⟨i, j, h1, by omega, le_refl i, by omega, by omega, hread, h4⟩
  | case3 i repetition hlo hread ih =>
    intro h h0
    rw [repetitionScan] at h
    simp only [hlo, hread, if_true, if_false] at h
    obtain ⟨j1, j2, h1, h2, h3, h4, h5, h6, h7⟩ := ih h h0
    exact ⟨j1, j2, h1, h2, by omega, by omega, by omega, h6, h7⟩
  | case4 i repetition hlo =>
    intro h _
    rw [repetitionScan] at h
    simp [hlo] at h

/-- When the cell past the end does not hold the hash, the scan of `isDraw`
returns `true` exactly when the history has at least two matching indices. -/
theorem repetitionScan_iff_two_indices (hist : List HashKey) (slot hash : HashKey)
    (lo : Int) (hslot : slot ≠ hash) :
    repetitionScan hist slot hash lo (hist.length : Int) 0 = true
      ↔ 2 ≤ (repetitionIndices hist hash lo).card := by
  constructor
  · intro h
    obtain ⟨j1, j2, h1, h2, h3, h4, h5, h6, h7⟩ :=
      repetitionScan_true_exists_two hist slot hash lo (hist.length : Int) 0 h (le_refl 0)
    obtain ⟨p1, q1⟩ := (readHash_eq_some_iff hist slot hash j1).mp h6
    obtain ⟨p2, q2⟩ := (readHash_eq_some_iff hist slot hash j2).mp h7
    have r1 : j1.toNat < hist.length ∧ hist[j1.toNat]? = some hash := by
      rcases q1 with q | q
      · exact q
      · exact absurd q.2 hslot
    have r2 : j2.toNat < hist.length ∧ hist[j2.toNat]? = some hash := by
      rcases q2 with q | q
      · exact q
      · exact absurd q.2 hslot
    apply Finset.one_lt_card.mpr
    refine ⟨j1.toNat, ?_, j2.toNat, ?_, ?_⟩
    · simp only [repetitionIndices, Finset.mem_filter, Finset.mem_range]
      exact ⟨by omega, by omega, by omega, r1.2⟩
    · simp only [repetitionIndices, Finset.mem_filter, Finset.mem_range]
      exact ⟨by omega, by omega, by omega, r2.2⟩
    · omega
  · intro h
    obtain ⟨a, ha, b, hb, hab⟩ := Finset.one_lt_card.mp h
    simp only [repetitionIndices, Finset.mem_filter, Finset.mem_range] at ha hb
    obtain ⟨a1, a2, a3, a4⟩ := ha
    obtain ⟨b1, b2, b3, b4⟩ := hb
    have la : a < hist.length := (List.getElem?_eq_some.mp a4).1
    have lb : b < hist.length := (List.getElem?_eq_some.mp b4).1
    have ra : readHash hist slot (a : Int) = some hash :=
      (readHash_eq_some_iff hist slot hash (a : Int)).mpr
        ⟨by omega, Or.inl ⟨by simpa using la, by simpa using a4⟩⟩
    have rb : readHash hist slot (b : Int) = some hash :=
      (readHash_eq_some_iff hist slot hash (b : Int)).mpr
        ⟨by omega, Or.inl ⟨by simpa using lb, by simpa using b4⟩⟩
    rcases Nat.lt_or_gt_of_ne hab with hlt | hgt
    · exact repetitionScan_true_of_two_matches hist slot hash lo (hist.length : Int) 0
        (b : Int) (a : Int) a2 (by omega) (by omega) (by omega) (by omega) rb ra (le_refl 0)
    · exact repetitionScan_true_of_two_matches hist slot hash lo (hist.length : Int) 0
        (a : Int) (b : Int) b2 (by omega) (by omega) (by omega) (by omega) ra rb (le_refl 0)

/-- When the cell past the end of `hashHistory` does not hold the position
hash, `isDraw` is the classifier of the specification. -/
theorem isDraw_eq_classifier_of_slot_ne {MAX_PLY : Nat} (sd : SearchData MAX_PLY)
    (slot : HashKey) (pos : Position) (hslot : slot ≠ pos.getHash) :
    isDraw sd slot pos = isDrawClassifier sd pos := by
  have hiff := repetitionScan_iff_two_indices sd.hashHistory slot pos.getHash
    (max ((sd.hashHistory.length : Int) - pos.halfMove) 0) hslot
  unfold isDraw isDrawClassifier
  by_cases hply : sd.ply = 0
  · simp [hply]
  · by_cases hs : repetitionScan sd.hashHistory slot pos.getHash
        (max ((sd.hashHistory.length : Int) - pos.halfMove) 0)
        (sd.hashHistory.length : Int) 0 = true
    · have hc := hiff.mp hs
      simp [hply, hs, hc]
    · have hc : ¬ 2 ≤ (repetitionIndices sd.hashHistory pos.getHash
          (max ((sd.hashHistory.length : Int) - pos.halfMove) 0)).card :=
        fun h => hs (hiff.mpr h)
      by_cases hm : 100 ≤ pos.halfMove
      · simp [hply, hs, hc, hm]
      · by_cases hk : popcnt (pos.getPieceBB PieceType.Knight) = 0
        · simp [hply, hs, hc, hm, hk]
        · have hk1 : 1 ≤ popcnt (pos.getPieceBB PieceType.Knight) := by omega
          by_cases ha : popcnt pos.all ≤ 3
          · simp [hply, hs, hc, hm, hk, hk1, ha]
          · simp [hply, hs, hc, hm, hk, hk1, ha]

/-- The result of `isDraw` depends on the position through the halfmove clock,
the hash, the occupancy and the knight bitboard only. -/
theorem isDraw_depends_on_knights_only {MAX_PLY : Nat} (sd : SearchData MAX_PLY)
    (slot : HashKey) (pos pos2 : Position) (h1 : pos2.halfMove = pos.halfMove)
    (h2 : pos2.getHash = pos.getHash) (h3 : pos2.all = pos.all)
    (h4 : pos2.getPieceBB PieceType.Knight = pos.getPieceBB PieceType.Knight) :
    isDraw sd slot pos2 = isDraw sd slot pos := by
  unfold isDraw
  rw [h1, h2, h3, h4]

/-- C13, the code after a backtrack.  The walk push 7, 8, 9, 42, 11, 42, pop
leaves `hashHistory = [7, 8, 9, 42, 11]` at ply 5 and the popped hash 42 in the
cell past the end.  For the initial position with hash 42 and halfmove clock
10, one index of the form `5 - 2k` above `max(5 - 10, 0)` holds the hash (index
3), the clock is below 100 and 32 pieces are on the board, so the classifier
gives `false`; `isDraw` counts the cell past the end at index 5 and index 3
and returns `true`. -/
theorem C13_classifier_differs_after_pop :
    (mkSearchData 6 [7, 8, 9, 42, 11, 42]).pop = some (mkSearchData 5 [7, 8, 9, 42, 11])
    ∧ (mkSearchData 6 [7, 8, 9, 42, 11, 42]).hashHistory.getLast? = some 42
    ∧ (repetitionIndices (mkSearchData 5 [7, 8, 9, 42, 11]).hashHistory 42
        (max (5 - (startPosition 10 42).halfMove) 0)).card = 1
    ∧ isDrawClassifier (mkSearchData 5 [7, 8, 9, 42, 11]) (startPosition 10 42) = false
    ∧ isDraw (mkSearchData 5 [7, 8, 9, 42, 11]) 42 (startPosition 10 42) = true := by
  have hc : (startPosition 10 42).halfMove = 10 := rfl
  have hh : (startPosition 10 42).getHash = 42 := rfl
  refine ⟨?_, by decide, by decide, by decide, ?_⟩
  · simp [SearchData.pop, mkSearchData]
  · simp [isDraw, mkSearchData, repetitionScan, readHash, hc, hh]

/-! ## The reads of the repetition scan -/

/-- Every index the loop reads lies above the loop bound and at or below the
index it starts from. -/
theorem repetitionReads_bounds (hist : List HashKey) (slot hash : HashKey) (lo : Int) :
    ∀ (i repetition : Int), ∀ j ∈ repetitionReads hist slot hash lo i repetition,
      lo < j ∧ j ≤ i := by
  intro i repetition
  induction i, repetition using repetitionReads.induct hist slot hash lo with
  | case1 i repetition hlo hread hrep =>
    intro j hj
    rw [repetitionReads] at hj
    simp only [hlo, hread, hrep, if_true, List.mem_singleton] at hj
    subst hj
    exact ⟨hlo, le_refl _⟩
  | case2 i repetition hlo hread hrep ih =>
    intro j hj
    rw [repetitionReads] at hj
    simp only [hlo, hread, hrep, if_true, if_false, List.mem_cons] at hj
    rcases hj with hj | hj
    · subst hj
      exact ⟨hlo, le_refl _⟩
    · have h := ih j hj
      exact ⟨h.1, by omega⟩
  | case3 i repetition hlo hread ih =>
    intro j hj
    rw [repetitionReads] at hj
    simp only [hlo, hread, if_true, if_false, List.mem_cons] at hj
    rcases hj with hj | hj
    · subst hj
      exact ⟨hlo, le_refl _⟩
    · have h := ih j hj
      exact ⟨h.1, by omega⟩
  | case4 i repetition hlo =>
    intro j hj
    rw [repetitionReads] at hj
    simp [hlo] at hj

/-- With `ply` not 0, a non-empty history and a positive halfmove clock, the
first read of `isDraw` is at index `size`, one past the last element, whatever
that cell holds; every read is at an index in `1 .. size`. -/
theorem isDrawReads_first_out_of_range {MAX_PLY : Nat} (sd : SearchData MAX_PLY)
    (slot : HashKey) (pos : Position) (hply : sd.ply ≠ 0) (hne : sd.hashHistory ≠ [])
    (hclock : 0 < pos.halfMove) :
    (isDrawReads sd slot pos).head? = some (sd.hashHistory.length : Int)
    ∧ ∀ j ∈ isDrawReads sd slot pos, 0 < j ∧ j ≤ (sd.hashHistory.length : Int) := by
  have hlen : 0 < sd.hashHistory.length := List.length_pos.mpr hne
  have hlo : max ((sd.hashHistory.length : Int) - pos.halfMove) 0
      < (sd.hashHistory.length : Int) := by
    rcases max_cases ((sd.hashHistory.length : Int) - pos.halfMove) 0 with ⟨e, _⟩ | ⟨e, _⟩ <;>
      rw [e] <;> omega
  constructor
  · unfold isDrawReads
    rw [repetitionReads]
    simp only [hply, hlo, if_true, if_false]
    split
    · split
      · omega
      · rfl
    · rfl
  · intro j hj
    unfold isDrawReads at hj
    simp only [hply, if_false] at hj
    have h := repetitionReads_bounds _ _ _ _ _ _ j hj
    have h0 : (0 : Int) ≤ max ((sd.hashHistory.length : Int) - pos.halfMove) 0 :=
      le_max_right _ _
    exact ⟨by omega, h.2⟩

/-- C14, the code at a one-entry history: at ply 1 with `hashHistory = [17]`
and halfmove clock 1, `isDraw` reads `hashHistory` at index 1 only, whatever
the cell past the end holds, and the history has length 1. -/
theorem C14_read_past_the_end :
    0 < (mkSearchData 1 [17]).ply ∧ 0 ≤ (startPosition 1 42).halfMove
    ∧ (mkSearchData 1 [17]).hashHistory.length = 1
    ∧ (∀ slot : HashKey,
        isDrawReads (mkSearchData 1 [17]) slot (startPosition 1 42) = [1])
    ∧ (mkSearchData 1 [17]).hashHistory[1]? = none := by
  have hc : (startPosition 1 42).halfMove = 1 := rfl
  have hh : (startPosition 1 42).getHash = 42 := rfl
  refine ⟨by decide, by decide, by decide, ?_, by decide⟩
  intro slot
  by_cases hs : slot = 42
  · simp [isDrawReads, mkSearchData, repetitionReads, readHash, hc, hh, hs]
  · simp [isDrawReads, mkSearchData, repetitionReads, readHash, hc, hh, hs]

/-! ## The stop flag -/

/-- One call of `mustStop` or `abort` keeps a raised flag raised. -/
theorem stepStop_keeps_true {MAX_PLY : Nat} (flags flags1 : Flags) (c : StopCall MAX_PLY)
    (f : Address) (hf : flags f = true) (hstep : stepStop flags c = some flags1) :
    flags1 f = true := by
  cases c with
  | mustStop td =>
    simp only [stepStop, ThreadData.mustStop] at hstep
    cases hs : td.stop with
    | none => simp [hs] at hstep
    | some a =>
      simp only [hs, Option.some.injEq] at hstep
      subst hstep
      exact hf
  | abort td =>
    simp only [stepStop, ThreadData.abort] at hstep
    cases hs : td.stop with
    | none => simp [hs] at hstep
    | some a =>
      simp only [hs, Option.some.injEq] at hstep
      subst hstep
      by_cases e : f = a
      · simp [Flags.store, e]
      · simp [Flags.store, e, hf]

/-- A sequence of `mustStop` and `abort` calls keeps a raised flag raised. -/
theorem runStop_keeps_true {MAX_PLY : Nat} (cs : List (StopCall MAX_PLY)) (f : Address) :
    ∀ (flags flags1 : Flags), flags f = true → runStop flags cs = some flags1 →
      flags1 f = true := by
  induction cs with
  | nil =>
    intro flags flags1 hf hrun
    simp only [runStop, Option.some.injEq] at hrun
    subst hrun
    exact hf
  | cons c cs ih =>
    intro flags flags1 hf hrun
    simp only [runStop] at hrun
    cases hstep : stepStop flags c with
    | none => simp [hstep] at hrun
    | some flags2 =>
      simp only [hstep] at hrun
      exact ih flags2 flags1 (stepStop_keeps_true flags flags2 c f hf hstep) hrun

/-- A sequence of calls on thread data with a non-null `stop` runs to its end. -/
theorem runStop_defined {MAX_PLY : Nat} (cs : List (StopCall MAX_PLY)) :
    ∀ (flags : Flags), (∀ c ∈ cs, c.thread.stop ≠ none) →
      ∃ flags1, runStop flags cs = some flags1 := by
  induction cs with
  | nil =>
    intro flags _
    exact ⟨flags, rfl⟩
  | cons c cs ih =>
    intro flags hb
    have hc : c.thread.stop ≠ none := hb c (List.mem_cons_self c cs)
    have hrest : ∀ d ∈ cs, d.thread.stop ≠ none :=
      fun d hd => hb d (List.mem_cons_of_mem c hd)
    have hstep : ∃ flags2, stepStop flags c = some flags2 := by
      cases c with
      | mustStop td =>
        cases hs : td.stop with
        | none => exact absurd hs hc
        | some a => exact ⟨flags, by simp [stepStop, ThreadData.mustStop, hs]⟩
      | abort td =>
        cases hs : td.stop with
        | none => exact absurd hs hc
        | some a => exact ⟨flags.store a true, by simp [stepStop, ThreadData.abort, hs]⟩
    obtain ⟨flags2, h2⟩ := hstep
    obtain ⟨flags1, h1⟩ := ih flags2 hrest
    exact ⟨flags1, by simp [runStop, h2, h1]⟩

/-- C12: the stop flag is shared and sticky.  After `abort` on thread data bound
to the flag `f`, `mustStop` returns `true` on every thread data bound to `f`,
also after any further sequence of `abort` and `mustStop` calls (which runs to
its end when made on thread data with a flag); `mustStop` leaves every flag as
it is; neither `abort` nor `mustStop` lowers a raised flag, and `reset` on
thread data bound to `f` lowers it. -/
theorem C12_stop_flag_sticky {MAX_PLY : Nat} (td : ThreadData MAX_PLY) (f : Address)
    (flags : Flags) (hb : td.stop = some f) :
    ∃ flags1, td.abort flags = some flags1
      ∧ (∀ td2 : ThreadData MAX_PLY, td2.stop = some f → td2.mustStop flags1 = some true)
      ∧ (∀ (cs : List (StopCall MAX_PLY)) (flags2 : Flags), runStop flags1 cs = some flags2 →
          ∀ td2 : ThreadData MAX_PLY, td2.stop = some f → td2.mustStop flags2 = some true)
      ∧ (∀ cs : List (StopCall MAX_PLY), (∀ c ∈ cs, c.thread.stop ≠ none) →
          ∃ flags2, runStop flags1 cs = some flags2)
      ∧ (∀ (td2 : ThreadData MAX_PLY) (flags2 flags3 : Flags),
          stepStop flags2 (StopCall.mustStop td2) = some flags3 → flags3 = flags2)
      ∧ (∀ (c : StopCall MAX_PLY) (flags2 flags3 : Flags), flags2 f = true →
          stepStop flags2 c = some flags3 → flags3 f = true)
      ∧ (∀ (td2 : ThreadData MAX_PLY) (now : Time), td2.stop = some f →
          ∃ r, td2.reset flags1 now = some r ∧ r.2 f = false
            ∧ ∀ td3 : ThreadData MAX_PLY, td3.stop = some f → td3.mustStop r.2 = some false) := by
  have h1 : (flags.store f true) f = true := by simp [Flags.store]
  refine ⟨flags.store f true, by simp [ThreadData.abort, hb], ?_, ?_, ?_, ?_, ?_, ?_⟩
  · intro td2 h2
    simp [ThreadData.mustStop, h2, h1]
  · intro cs flags2 hrun td2 h2
    have h := runStop_keeps_true cs f _ flags2 h1 hrun
    simp [ThreadData.mustStop, h2, h]
  · intro cs hcs
    exact runStop_defined cs _ hcs
  · intro td2 flags2 flags3 hstep
    simp only [stepStop] at hstep
    cases hm : td2.mustStop flags2 with
    | none => simp [hm] at hstep
    | some b =>
      simp only [hm, Option.some.injEq] at hstep
      exact hstep.symm
  · intro c flags2 flags3 hf hstep
    exact stepStop_keeps_true flags2 flags3 c f hf hstep
  · intro td2 now h2
    refine ⟨({ td2 with info := { td2.info with starttime := now, nodes := 0, seldepth := 0 } },
        (flags.store f true).store f false), by simp only [ThreadData.reset, h2], ?_, ?_⟩
    · simp [Flags.store]
    · intro td3 h3
      simp [ThreadData.mustStop, h3, Flags.store]

/-- Witness of C12: two thread data bound to the flag at address 7; after
`abort` on the first and then `mustStop`, `abort`, `mustStop` calls, `mustStop`
on the second returns `true`. -/
theorem C12_stop_flag_sticky_witness :
    (mkThreadData (some 7)).stop = some 7
    ∧ ∃ flags1, (mkThreadData (some 7)).abort allClear = some flags1
      ∧ ∃ flags2,
          runStop flags1
            [StopCall.mustStop (mkThreadData (some 7)), StopCall.abort (mkThreadData (some 7)),
              StopCall.mustStop (mkThreadData (some 7))] = some flags2
          ∧ (mkThreadData (some 7)).mustStop flags2 = some true := by
  refine ⟨rfl, ?_⟩
  obtain ⟨flags1, h1, _, h3, h4, _⟩ :=
    C12_stop_flag_sticky (mkThreadData (some 7)) 7 allClear rfl
  obtain ⟨flags2, h5⟩ := h4
    [StopCall.mustStop (mkThreadData (some 7)), StopCall.abort (mkThreadData (some 7)),
      StopCall.mustStop (mkThreadData (some 7))]
    (by
      intro c hc
      simp only [List.mem_cons, List.mem_singleton, List.not_mem_nil, or_false] at hc
      rcases hc with e | e | e <;> subst e <;> simp [StopCall.thread, mkThreadData])
  exact ⟨flags1, h1, flags2, h5, h3 _ flags2 h5 (mkThreadData (some 7)) rfl⟩

/-- C16: `reset` on thread data bound to the flag `f` succeeds, lowers `f` (so
`mustStop` returns `false` on every thread data bound to `f`, whatever the
flag held before), sets `info.nodes` and `info.seldepth` to 0 and
`info.starttime` to the current time, and keeps everything else: the other
fields of `info`, `sd`, `pvTable`, `rootPos`, `stop` and every other flag. -/
theorem C16_thread_reset_frame {MAX_PLY : Nat} (td : ThreadData MAX_PLY) (f : Address)
    (flags : Flags) (now : Time) (hb : td.stop = some f) :
    ∃ td1 flags1, td.reset flags now = some (td1, flags1)
      ∧ flags1 f = false
      ∧ (∀ td2 : ThreadData MAX_PLY, td2.stop = some f → td2.mustStop flags1 = some false)
      ∧ (∀ g : Address, g ≠ f → flags1 g = flags g)
      ∧ td1.info.nodes = 0 ∧ td1.info.seldepth = 0 ∧ td1.info.starttime = now
      ∧ td1.info.timelim = td.info.timelim ∧ td1.info.softlim = td.info.softlim
      ∧ td1.info.depth = td.info.depth ∧ td1.info.nodeslim = td.info.nodeslim
      ∧ td1.info.movestogo = td.info.movestogo ∧ td1.info.multiPV = td.info.multiPV
      ∧ td1.info.searchedPV = td.info.searchedPV
      ∧ td1.sd = td.sd ∧ td1.pvTable = td.pvTable ∧ td1.rootPos = td.rootPos
      ∧ td1.stop = td.stop := by
  refine ⟨{ td with info := { td.info with starttime := now, nodes := 0, seldepth := 0 } },
    flags.store f false, by simp only [ThreadData.reset, hb], ?_, ?_, ?_,
    rfl, rfl, rfl, rfl, rfl, rfl, rfl, rfl, rfl, rfl, rfl, rfl, rfl, rfl⟩
  · simp [Flags.store]
  · intro td2 h2
    simp [ThreadData.mustStop, h2, Flags.store]
  · intro g hg
    simp [Flags.store, hg]

/-- Witness of C16: the flag at address 7 raised by an `abort`; `reset` at time
5000 lowers it, zeroes the node count 1234 and the selective depth 9, and
keeps the depth limit 100 and the search data. -/
theorem C16_thread_reset_frame_witness :
    (mkThreadData (some 7)).stop = some 7
    ∧ (mkThreadData (some 7)).mustStop (allClear.store 7 true) = some true
    ∧ ∃ td1 flags1, (mkThreadData (some 7)).reset (allClear.store 7 true) 5000
          = some (td1, flags1)
        ∧ (mkThreadData (some 7)).mustStop flags1 = some false
        ∧ td1.info.nodes = 0 ∧ td1.info.seldepth = 0 ∧ td1.info.starttime = 5000
        ∧ td1.info.depth = 100 ∧ td1.sd = mkSearchData 2 [5, 6] := by
  refine ⟨rfl, by decide, ?_⟩
  obtain ⟨td1, flags1, h1, _, h3, _, h5, h6, h7, _, _, h10, _, _, _, _, h15, _⟩ :=
    C16_thread_reset_frame (mkThreadData (some 7)) 7 (allClear.store 7 true) 5000 rfl
  exact ⟨td1, flags1, h1, h3 _ rfl, h5, h6, h7, h10, h15⟩

/-! ## Score constants -/

/-- C17: `CHECKMATE_SCORE < INFINITY_SCORE < NO_SCORE`; every score `s` with
`-INFINITY_SCORE ≤ s ≤ INFINITY_SCORE`, and `NO_SCORE`, lies with its negation
within the `int16_t` range; for `0 ≤ ply < INFINITY_SCORE - CHECKMATE_SCORE`
the mate values `CHECKMATE_SCORE - ply` and `-CHECKMATE_SCORE + ply` lie
strictly between `-INFINITY_SCORE` and `INFINITY_SCORE`, and their magnitude
strictly decreases as `ply` grows. -/
theorem C17_score_constants :
    CHECKMATE_SCORE < INFINITY_SCORE ∧ INFINITY_SCORE < NO_SCORE
    ∧ (∀ s : Int, -INFINITY_SCORE ≤ s → s ≤ INFINITY_SCORE →
        INT16_MIN ≤ s ∧ s ≤ INT16_MAX ∧ INT16_MIN ≤ -s ∧ -s ≤ INT16_MAX)
    ∧ (INT16_MIN ≤ NO_SCORE ∧ NO_SCORE ≤ INT16_MAX
        ∧ INT16_MIN ≤ -NO_SCORE ∧ -NO_SCORE ≤ INT16_MAX)
    ∧ (∀ ply : Int, 0 ≤ ply → ply < INFINITY_SCORE - CHECKMATE_SCORE →
        -INFINITY_SCORE < CHECKMATE_SCORE - ply ∧ CHECKMATE_SCORE - ply < INFINITY_SCORE
        ∧ -INFINITY_SCORE < -CHECKMATE_SCORE + ply ∧ -CHECKMATE_SCORE + ply < INFINITY_SCORE)
    ∧ (∀ p q : Int, 0 ≤ p → p < q → q < INFINITY_SCORE - CHECKMATE_SCORE →
        |CHECKMATE_SCORE - q| < |CHECKMATE_SCORE - p|
        ∧ |-CHECKMATE_SCORE + q| < |-CHECKMATE_SCORE + p|) := by
  have key : (30000 : Int) < 32000 ∧ (32000 : Int) < 32001
      ∧ (∀ s : Int, -32000 ≤ s → s ≤ 32000 →
          -32768 ≤ s ∧ s ≤ 32767 ∧ -32768 ≤ -s ∧ -s ≤ 32767)
      ∧ ((-32768 : Int) ≤ 32001 ∧ (32001 : Int) ≤ 32767
          ∧ (-32768 : Int) ≤ -32001 ∧ -(32001 : Int) ≤ 32767)
      ∧ (∀ ply : Int, 0 ≤ ply → ply < 32000 - 30000 →
          -32000 < 30000 - ply ∧ 30000 - ply < 32000
          ∧ -32000 < -30000 + ply ∧ -30000 + ply < 32000)
      ∧ (∀ p q : Int, 0 ≤ p → p < q → q < 32000 - 30000 →
          |30000 - q| < |30000 - p| ∧ |-30000 + q| < |-30000 + p|) := by
    refine ⟨by decide, by decide, ?_, by decide, ?_, ?_⟩
    · intro s h1 h2
      refine ⟨?_, ?_, ?_, ?_⟩ <;> omega
    · intro ply h1 h2
      refine ⟨?_, ?_, ?_, ?_⟩ <;> omega
    · intro p q h1 h2 h3
      have a1 : |30000 - q| = 30000 - q := abs_of_pos (by omega)
      have a2 : |30000 - p| = 30000 - p := abs_of_pos (by omega)
      have a3 : |-30000 + q| = 30000 - q := by
        rw [abs_of_neg (by omega)]; ring
      have a4 : |-30000 + p| = 30000 - p := by
        rw [abs_of_neg (by omega)]; ring
      rw [a1, a2, a3, a4]
      constructor <;> omega
  exact key

/-- Witness of C17: the score 32000 and its negation fit 16 bits, and a mate
at ply 3 has a greater magnitude than a mate at ply 5. -/
theorem C17_score_constants_witness :
    (INT16_MIN ≤ (32000 : Int) ∧ (32000 : Int) ≤ INT16_MAX
      ∧ INT16_MIN ≤ -(32000 : Int) ∧ -(32000 : Int) ≤ INT16_MAX)
    ∧ (|CHECKMATE_SCORE - 5| < |CHECKMATE_SCORE - 3|
      ∧ |-CHECKMATE_SCORE + 5| < |-CHECKMATE_SCORE + 3|) :=
  ⟨C17_score_constants.2.2.1 32000 (by decide) (by decide),
    C17_score_constants.2.2.2.2.2 3 5 (by decide) (by decide) (by decide)⟩

end Fodder
